import Mathlib

/-
Verification development for the whois-parser normalization core
(`prepare.go`).  The Go code is shallowly embedded over `List Char`:
every Go string is modelled as its list of characters, Go's
`strings.Split` / `TrimSpace` / `Replace` and the two regular
expressions of the file are modelled by explicit recursive functions,
and the two reachable panic sites (out-of-range slice indexing) are
modelled by `Option`: a transformer that can panic returns `none`
exactly where the Go code would raise an index-out-of-range panic.
ASCII note: Go's `strings.ToLower` and `unicode.IsSpace` act on all of
Unicode; the model implements their Latin-1 restriction, which is the
range exercised by whois responses and by every claim below.
-/

namespace WhoisParser

/-- A Go string, modelled as its list of characters. -/
abbrev Chars := List Char

/-- Coerce a Lean string literal to the `Chars` model. -/
def str (s : String) : Chars := s.data

/-- Go `unicode.IsSpace`, restricted to Latin-1: space, \t, \n, \v, \f, \r,
NEL (U+0085) and NBSP (U+00A0). -/
def goIsSpace (c : Char) : Bool :=
  c = ' ' || c = '\t' || c = '\n' || c = '\x0b' || c = '\x0c' || c = '\r' ||
  c = '\x85' || c = '\xa0'

/-- RE2's `\s` character class: `[\t\n\f\r ]`. -/
def reSpace (c : Char) : Bool :=
  c = ' ' || c = '\t' || c = '\n' || c = '\x0c' || c = '\r'

/-- Go `strings.TrimSpace` (Latin-1 range). -/
def trimSpace (l : Chars) : Chars :=
  ((l.dropWhile goIsSpace).reverse.dropWhile goIsSpace).reverse

/-- Worker for `splitChar`, accumulating the current field reversed. -/
def splitCharGo (sep : Char) : Chars → Chars → List Chars
  | [], acc => [acc.reverse]
  | c :: rest, acc =>
    if c = sep then acc.reverse :: splitCharGo sep rest []
    else splitCharGo sep rest (c :: acc)

/-- Go `strings.Split(s, sep)` for a one-character separator. -/
def splitChar (sep : Char) (l : Chars) : List Chars := splitCharGo sep l []

/-- Go `strings.SplitN(s, sep, 2)` for a one-character separator. -/
def splitN2 (sep : Char) (l : Chars) : List Chars :=
  let a := l.takeWhile (fun c => ¬ c = sep)
  match l.dropWhile (fun c => ¬ c = sep) with
  | [] => [l]
  | _ :: rest => [a, rest]

/-- Go `strings.HasPrefix`. -/
def startsWithL (p l : Chars) : Bool := l.take p.length = p

/-- Lookup in a Go map literal, modelled as an association list.
A missing key yields `none` (Go: the zero value). -/
def assocGet {α : Type} (m : List (Chars × α)) (k : Chars) : Option α :=
  (m.find? (fun e => decide (e.1 = k))).map Prod.snd

/-- Go `strings.ToLower` for one character (ASCII range). -/
def lowerChar (c : Char) : Char :=
  if 'A' ≤ c ∧ c ≤ 'Z' then Char.ofNat (c.toNat + 32) else c

/-- Lower-case a whole string (ASCII range). -/
def lowerL (l : Chars) : Chars := l.map lowerChar

/-- Case-insensitive literal match at the head of `l`
(`pat` is given lower-cased). -/
def ciStarts (pat l : Chars) : Bool := (l.take pat.length).map lowerChar = pat

/-- Case-insensitive substring test (`pat` given lower-cased); used to
reason about where the dialect detector can possibly match. -/
def containsCI (pat : Chars) : Chars → Bool
  | [] => pat.isEmpty
  | c :: rest => ciStarts pat (c :: rest) || containsCI pat rest

/-- ASCII alphabetic character, matching `(?i)[a-z]` of the detector regex. -/
def isAlphaCh (c : Char) : Bool :=
  ('a' ≤ c ∧ c ≤ 'z') || ('A' ≤ c ∧ c ≤ 'Z')

/-- Character class `(?i)[a-z0-9\-]` of the detector regex. -/
def isLabelCh (c : Char) : Bool :=
  isAlphaCh c || ('0' ≤ c ∧ c ≤ '9') || c = '-'

/-- Tail of the detector regex `\]?\s*\:?\s*([a-z0-9\-]+)\.([a-z]{2,})`:
every step is forced (the classes are pairwise disjoint), so no
backtracking is needed; returns the tld group. -/
def matchCore (l : Chars) : Option Chars :=
  let l1 := if l.head? = some (']') then l.tail else l
  let l2 := l1.dropWhile reSpace
  let l3 := if l2.head? = some (':') then l2.tail else l2
  let l4 := l3.dropWhile reSpace
  let lab := l4.takeWhile isLabelCh
  if lab = [] then none
  else
    match l4.drop lab.length with
    | '.' :: r =>
      let tld := r.takeWhile isAlphaCh
      if 2 ≤ tld.length then some tld else none
    | _ => none

/-- Optional group `(\s+name)?` of the detector regex: the greedy attempt
with the group is tried first and the group is dropped on failure
(e.g. `Domain name.fr` matches with label `name`). -/
def matchAfterDomain (l : Chars) : Option Chars :=
  let sp := l.takeWhile reSpace
  let r := l.drop sp.length
  match (if 1 ≤ sp.length ∧ ciStarts (str ("name")) r
         then matchCore (r.drop 4) else none) with
  | some t => some t
  | none => matchCore l

/-- One attempt of the detector regex
`(?i)\[?Domain(\s+name)?\]?\s*\:?\s*([a-z0-9\-]+)\.([a-z]{2,})`
anchored at the head of `l`.  A leading `[` is consumed when present
(skipping it cannot help: the literal `Domain` must follow). -/
def matchDomainAt (l : Chars) : Option Chars :=
  let l1 := if l.head? = some ('[') then l.tail else l
  if ciStarts (str ("domain")) l1 then matchAfterDomain (l1.drop 6) else none

/-- Go `searchDomain.FindStringSubmatch`: leftmost match wins; the value
is the (not yet lower-cased) tld group `m[3]`. -/
def searchDomain : Chars → Option Chars
  | [] => none
  | c :: rest =>
    match matchDomainAt (c :: rest) with
    | some t => some t
    | none => searchDomain rest

/-- The tld the dispatcher switches on: `strings.ToLower(m[3])`. -/
def detectTld (text : Chars) : Option Chars :=
  (searchDomain text).map lowerL

/-- The universal pre-pass of `Prepare`: strip `\r`, replace `\t` by a
space. -/
def prePass (text : Chars) : Chars :=
  (text.filter (fun c => ¬ c = '\r')).map (fun c => if c = '\t' then ' ' else c)

/-! Transformer for `.edu` (`prepareEDU`). -/

/-- Section schemas of `prepareEDU` (the Go `tokens` map). -/
def eduTokens : List (Chars × List Chars) :=
  [(str ("Registrant:"),
    [str ("Organization"), str ("Address"), str ("Address"), str ("Address")]),
   (str ("Administrative Contact:"),
    [str ("Name"), str ("Organization"), str ("Address"), str ("Address"),
     str ("Address"), str ("Phone"), str ("Email")]),
   (str ("Technical Contact:"),
    [str ("Name"), str ("Organization"), str ("Address"), str ("Address"),
     str ("Address"), str ("Phone"), str ("Email")])]

/-- Loop body of `prepareEDU`.  `tokens[token][index]` with `index` past
the schema end is a Go index-out-of-range panic, modelled as `none`. -/
def eduLoop : List Chars → Chars → Nat → Chars → Option Chars
  | [], _, _, result => some result
  | v0 :: rest, token0, index0, result =>
    let v := trimSpace v0
    if v = [] then eduLoop rest token0 index0 result
    else
      let token := if v.getLast? = some (':') then [] else token0
      let index := if v.getLast? = some (':') then 0 else index0
      if (assocGet eduTokens v).isSome then eduLoop rest v index result
      else if token = [] then eduLoop rest token index (result ++ '\n' :: v)
      else
        match ((assocGet eduTokens token).getD []).get? index with
        | none => none
        | some fieldName =>
          eduLoop rest token (index + 1)
            (result ++ '\n' :: (token.dropLast ++ ' ' :: (fieldName ++ ':' :: ' ' :: v)))

/-- Go `prepareEDU`. -/
def prepareEDU (text : Chars) : Option Chars :=
  eduLoop (splitChar ('\n') text) [] 0 []

/-! Transformer for `.int` (`prepareINT`). -/

/-- Loop body of `prepareINT`.  `vs[1]` is only read under the
`strings.Contains(v, ":")` guard, so the Go code cannot panic here and
the default `[]` of `getD` is never used. -/
def intLoop : List Chars → Chars → Chars → Chars
  | [], _, result => result
  | v0 :: rest, token0, result =>
    let v := trimSpace v0
    if v = [] then intLoop rest [] result
    else
      if v.contains (':') then
        let vs := splitChar (':') v
        let k := trimSpace (vs.headD [])
        let token1 :=
          if k = str ("organisation") ∧ token0 = [] then str ("registrant") else token0
        if k = str ("contact") then
          intLoop rest (trimSpace ((vs.get? 1).getD [])) (result ++ '\n' :: v)
        else
          let v2 := if token1 ≠ [] then token1 ++ ' ' :: v else v
          intLoop rest token1 (result ++ '\n' :: v2)
      else intLoop rest token0 (result ++ '\n' :: v)

/-- Go `prepareINT`. -/
def prepareINT (text : Chars) : Chars := intLoop (splitChar ('\n') text) [] []

/-! Transformer for `.mo` (`prepareMO`). -/

/-- Section map of `prepareMO`. -/
def moTokens : List (Chars × Chars) :=
  [(str ("Registrant:"), str ("Registrant")),
   (str ("Admin Contact(s):"), str ("Admin")),
   (str ("Billing Contact(s):"), str ("Billing")),
   (str ("Technical Contact(s):"), str ("Technical"))]

/-- Date-line normalization shared by `prepareMO` and `prepareTW`:
`strings.Replace(v, s, s+":", 1)` guarded by `strings.HasPrefix(v, s)`,
so the first occurrence is at position 0. -/
def datePre (v : Chars) : Chars :=
  let s1 := str ("Record created on")
  let s2 := str ("Record expires on")
  let v1 := if startsWithL s1 v then s1 ++ ':' :: v.drop s1.length else v
  if startsWithL s2 v1 then s2 ++ ':' :: v1.drop s2.length else v1

/-- Loop body of `prepareMO`. -/
def moLoop : List Chars → Chars → Chars → Chars
  | [], _, result => result
  | v0 :: rest, token0, result =>
    let v := trimSpace v0
    if v = [] then moLoop rest [] result
    else if v.head? = some ('-') then moLoop rest token0 result
    else
      let v := datePre v
      match assocGet moTokens v with
      | some t => moLoop rest t (result ++ '\n' :: v)
      | none =>
        let v2 := if token0 ≠ [] then token0 ++ ' ' :: v else v
        moLoop rest token0 (result ++ '\n' :: v2)

/-- Go `prepareMO`. -/
def prepareMO (text : Chars) : Chars := moLoop (splitChar ('\n') text) [] []

/-! Transformer for `.hk` (`prepareHK`). -/

/-- Section map of `prepareHK`. -/
def hkTokens : List (Chars × Chars) :=
  [(str ("Registrant Contact Information:"), str ("Registrant")),
   (str ("Administrative Contact Information:"), str ("Admin")),
   (str ("Technical Contact Information:"), str ("Technical")),
   (str ("Name Servers Information:"), str ("Name Servers:"))]

/-- Date labels exempt from section prefixing in `prepareHK`. -/
def hkDateTokens : List Chars :=
  [str ("Domain Name Commencement Date"), str ("Expiry Date")]

/-- Modelled from the spec: the collaborator utility `assert.IsContains`
(gokit, not under src) — "a generic set membership test (is a string
present in a small fixed list)". -/
def IsContains (l : List Chars) (x : Chars) : Bool := l.contains x

/-- Go `strings.Replace(text, "\n\n", "\n", -1)`: non-overlapping,
left-to-right. -/
def collapseNN : Chars → Chars
  | '\n' :: '\n' :: rest => '\n' :: collapseNN rest
  | c :: rest => c :: collapseNN rest
  | [] => []

/-- One anchored attempt of the `prepareHK` registrar regex
`Email\:\s+([^\s]+)(\s+Hotline\:(.*))?`; returns `(m[1], m[3])`.
The first `[^\s]+` is greedy and maximal (the next char is whitespace
or the end, so no backtracking can help); the optional group is then
forced. -/
def hkEmailAt (l : Chars) : Option (Chars × Chars) :=
  if startsWithL (str ("Email:")) l then
    let r := l.drop 6
    let sp := r.takeWhile reSpace
    let r2 := r.drop sp.length
    let m1 := r2.takeWhile (fun c => ¬ reSpace c)
    if 1 ≤ sp.length ∧ 1 ≤ m1.length then
      let r3 := r2.drop m1.length
      let sp2 := r3.takeWhile reSpace
      let r4 := r3.drop sp2.length
      if 1 ≤ sp2.length ∧ startsWithL (str ("Hotline:")) r4 then
        some (m1, r4.drop 8)
      else some (m1, [])
    else none
  else none

/-- Leftmost match of the `prepareHK` registrar regex. -/
def hkEmailScan : Chars → Option (Chars × Chars)
  | [] => none
  | c :: rest =>
    match hkEmailAt (c :: rest) with
    | some m => some m
    | none => hkEmailScan rest

/-- Section-token step of `prepareHK`: returns the new token and the
possibly section-prefixed line. -/
def hkTokenStep (token : Chars) (field : Chars) (v : Chars) : Chars × Chars :=
  match assocGet hkTokens v with
  | some t => (t, v)
  | none =>
    (token,
     if token ≠ [] ∧ ¬ (IsContains hkDateTokens field = true) then token ++ ' ' :: v
     else v)

/-- Loop body of `prepareHK`.  All `vs[1]` reads are guarded by
`strings.Contains(v, ":")` (via `SplitN(v, ":", 2)`), so no panic is
reachable and the `getD []` defaults are never used. -/
def hkLoop : List Chars → Chars → Bool → Chars → Chars
  | [], _, _, result => result
  | v0 :: rest, token0, addr0, result =>
    let v := trimSpace v0
    if v = [] then hkLoop rest [] addr0 result
    else
      if v.contains (':') then
        let vs := splitN2 (':') v
        let f0 := trimSpace (vs.headD [])
        let vs1 := (vs.get? 1).getD []
        let field := if f0.contains ('(') then (splitChar ('(') f0).headD [] else f0
        let v1 := if f0.contains ('(') then field ++ ':' :: ' ' :: vs1 else v
        let addr := field = str ("Address")
        let v2 :=
          if field = str ("Registrar Contact Information") then
            match hkEmailScan vs1 with
            | some m =>
              trimSpace
                ((if m.1 ≠ [] then str ("Registrar Contact Email: ") ++ m.1 ++ ['\n'] else []) ++
                 (if m.2 ≠ [] then str ("Registrar Contact Phone: ") ++ m.2 ++ ['\n'] else []))
            | none => v1
          else v1
        if field = str ("Family name") then
          let vv := trimSpace vs1
          if vv ≠ [] ∧ vv ≠ str (".") then hkLoop rest token0 addr (result ++ ' ' :: vv)
          else hkLoop rest token0 addr result
        else
          let tv := hkTokenStep token0 field v2
          hkLoop rest tv.1 addr (result ++ '\n' :: tv.2)
      else
        if addr0 = true then hkLoop rest token0 addr0 (result ++ ',' :: ' ' :: v)
        else
          let tv := hkTokenStep token0 [] v
          hkLoop rest tv.1 addr0 (result ++ '\n' :: tv.2)

/-- Go `prepareHK`. -/
def prepareHK (text : Chars) : Chars :=
  hkLoop (splitChar ('\n') (collapseNN text)) [] false []

/-! Transformer for `.tw` (`prepareTW`). -/

/-- Section schemas of `prepareTW`. -/
def twTokens : List (Chars × List Chars) :=
  [(str ("Registrant:"),
    [str ("Organization"), str ("Name,Email"), str ("Phone"), str ("Fax"),
     str ("Address"), str ("Address"), str ("Address")]),
   (str ("Administrative Contact:"),
    [str ("Name,Email"), str ("Phone"), str ("Fax")]),
   (str ("Technical Contact:"),
    [str ("Name,Email"), str ("Phone"), str ("Fax")]),
   (str ("Contact:"), [str ("Name"), str ("Email")])]

/-- Does a maximal non-space run contain `@` at an interior position
(at least one non-space character before and after it)?  This is when
`[^\s]+@[^\s]+` matches exactly the whole run. -/
def twRunHasAt (run : Chars) : Bool := ((run.drop 1).dropLast).contains ('@')

/-- Matching of the `prepareTW` regex `(.*)\s+([^\s]+@[^\s]+)` against a
newline-free line: `(.*)` is greedy, so the match uses the last
whitespace character that is immediately followed by a non-space run
containing an interior `@`; `m[1]` is everything before that whitespace
character and `m[2]` is the whole run. -/
def twScanEmail : Chars → Chars → Option (Chars × Chars) → Option (Chars × Chars)
  | [], _, best => best
  | c :: rest, seen, best =>
    if reSpace c then
      let run := rest.takeWhile (fun x => ¬ reSpace x)
      let cand : Option (Chars × Chars) :=
        if twRunHasAt run = true then some (seen.reverse, run) else none
      twScanEmail rest (c :: seen) (if cand.isSome then cand else best)
    else twScanEmail rest (c :: seen) best

/-- Go `re.FindStringSubmatch(v)` for the `prepareTW` name/email regex:
`some (m[1], m[2])` when the regex matches. -/
def twSplitEmail (v : Chars) : Option (Chars × Chars) := twScanEmail v [] none

/-- Loop body of `prepareTW`.  Go keeps `index` starting at `-1` and
pre-increments before use; the model keeps the next index, starting
at `0`.  `tokens[token][index]` past the schema end is a Go
index-out-of-range panic, modelled as `none`. -/
def twLoop : List Chars → Chars → Nat → Chars → Option Chars
  | [], _, _, result => some result
  | v0 :: rest, token0, idx0, result =>
    let v := trimSpace v0
    if v = [] then twLoop rest token0 idx0 result
    else
      let v := datePre v
      let token := if v.contains (':') then [] else token0
      let idx := if v.contains (':') then 0 else idx0
      if (assocGet twTokens v).isSome then twLoop rest v idx result
      else if token = [] then twLoop rest token idx (result ++ '\n' :: v)
      else
        match ((assocGet twTokens token).getD []).get? idx with
        | none => none
        | some indexName =>
          let tokenName0 := token.dropLast
          let tokenName :=
            if tokenName0 = str ("Contact") then str ("Registrant Contact") else tokenName0
          if indexName.contains (',') then
            let ins := splitChar (',') indexName
            let in0 := ins.headD []
            let in1 := (ins.get? 1).getD []
            match twSplitEmail v with
            | some m =>
              twLoop rest token (idx + 1)
                ((result ++ '\n' :: (tokenName ++ ' ' :: (in0 ++ ':' :: ' ' :: trimSpace m.1))) ++
                 '\n' :: (tokenName ++ ' ' :: (in1 ++ ':' :: ' ' :: trimSpace m.2)))
            | none =>
              twLoop rest token (idx + 1)
                (result ++ '\n' :: (tokenName ++ ' ' :: (in0 ++ ':' :: ' ' :: trimSpace v)))
          else
            twLoop rest token (idx + 1)
              (result ++ '\n' :: (tokenName ++ ' ' :: (indexName ++ ':' :: ' ' :: v)))

/-- Go `prepareTW`. -/
def prepareTW (text : Chars) : Option Chars :=
  twLoop (splitChar ('\n') text) [] 0 []

/-! Transformer for `.ch` (`prepareCH`). -/

/-- Top-level field tokens of `prepareCH`. -/
def chTokens : List Chars :=
  [str ("Domain name"), str ("Holder"), str ("Technical contact"),
   str ("Registrar"), str ("DNSSEC"), str ("Name servers"),
   str ("First registration date")]

/-- Compound-field sub-schemas of `prepareCH`. -/
def chSplits : List (Chars × Chars) :=
  [(str ("Holder"),
    str ("Registrant organization, Registrant name, Registrant street")),
   (str ("Technical contact"),
    str ("Technical organization, Technical name, Technical street"))]

/-- First token `t` (in list order) with
`strings.HasPrefix(strings.ToLower(v)+" ", strings.ToLower(t)+" ")`. -/
def chFindTok (v : Chars) : List Chars → Option Chars
  | [] => none
  | t :: ts =>
    if startsWithL (lowerL t ++ [' ']) (lowerL v ++ [' ']) = true then some t
    else chFindTok v ts

/-- First pass of `prepareCH`: token lines become `Token: rest`, other
lines are comma-joined to the accumulated result. -/
def chPass1 : List Chars → Chars → Chars
  | [], result => result
  | v0 :: rest, result =>
    let v := trimSpace v0
    if v = [] then chPass1 rest result
    else
      match chFindTok v chTokens with
      | some t =>
        chPass1 rest (result ++ '\n' :: (trimSpace t ++ ':' :: ' ' :: trimSpace (v.drop t.length)))
      | none => chPass1 rest (result ++ ',' :: ' ' :: v)

/-- Go `strings.Split(s, ", ")`. -/
def splitCS : Chars → Chars → List Chars
  | [], acc => [acc.reverse]
  | ',' :: ' ' :: rest, acc => acc.reverse :: splitCS rest []
  | c :: rest, acc => splitCS rest (c :: acc)

/-- Go `strings.Join(xs, ", ")`. -/
def joinCS (xs : List Chars) : Chars := List.intercalate (str (", ")) xs

/-- Go `strings.Join(xs, "\n")`. -/
def joinNL (xs : List Chars) : Chars := List.intercalate (str ("\n")) xs

/-- Second pass of `prepareCH`: explode the two compound tokens into
sub-fields; surplus comma-separated segments fold into the last one. -/
def chPass2 : List Chars → List Chars
  | [] => []
  | v :: rest =>
    if ¬ v.contains (':') then chPass2 rest
    else
      let vs := splitChar (':') v
      match assocGet chSplits (vs.headD []) with
      | some sp =>
        let vv0 := splitCS ((vs.get? 1).getD []) []
        let ss := splitCS sp []
        let vv :=
          if ss.length < vv0.length then
            vv0.take (ss.length - 1) ++ [joinCS (vv0.drop (ss.length - 1))]
          else vv0
        List.zipWith (fun s x => s ++ ':' :: ' ' :: x) ss vv ++ chPass2 rest
      | none => v :: chPass2 rest

/-- Go `strings.Replace(text, ": ,", ":", -1)`. -/
def replaceColonComma : Chars → Chars
  | ':' :: ' ' :: ',' :: rest => ':' :: replaceColonComma rest
  | c :: rest => c :: replaceColonComma rest
  | [] => []

/-- Go `prepareCH`. -/
def prepareCH (text : Chars) : Chars :=
  replaceColonComma (joinNL (chPass2 (splitChar ('\n') (chPass1 (splitChar ('\n') text) []))))

/-! Transformer for `.it` (`prepareIT`). -/

/-- Top-level section names of `prepareIT`. -/
def itTopTokens : List Chars :=
  [str ("Registrant"), str ("Admin Contact"), str ("Technical Contacts"),
   str ("Registrar"), str ("Nameservers")]

/-- Loop body of `prepareIT`. -/
def itLoop : List Chars → Chars → Chars → Chars → Chars
  | [], _, _, result => result
  | v0 :: rest, top0, sub0, result =>
    let v := trimSpace v0
    if v = [] then itLoop rest top0 sub0 result
    else
      if IsContains itTopTokens v = true then itLoop rest (v ++ [' ']) [] result
      else
        if ¬ v.head? = some ('*') ∧ v.contains (':') then
          let vs := splitChar (':') v
          itLoop rest top0 (vs.headD []) (result ++ '\n' :: (top0 ++ v))
        else
          if sub0 ≠ [] then itLoop rest top0 sub0 (result ++ ',' :: ' ' :: v)
          else
            if top0 ≠ [] ∧ ¬ v.contains (':') then
              itLoop rest top0 sub0 (result ++ '\n' :: (top0 ++ ':' :: ' ' :: v))
            else itLoop rest top0 sub0 (result ++ '\n' :: (top0 ++ v))

/-- Go `prepareIT`. -/
def prepareIT (text : Chars) : Chars := itLoop (splitChar ('\n') text) [] [] []

/-! Transformer for `.fr` and friends (`prepareFR`). -/

/-- Role table of `prepareFR`. -/
def frRoleTokens : List (Chars × Chars) :=
  [(str ("holder-c"), str ("holder")),
   (str ("admin-c"), str ("admin")),
   (str ("tech-c"), str ("tech"))]

/-- Modelled from the spec: the helper `Keys` used by `prepareFR`
(`for _, kk := range Keys(hdls)`) is not under src; per the spec the
transformation is a deterministic pure function and the first matching
entry wins, so the handle map is modelled as an insertion-ordered
association list and `Keys` enumerates it in that order. -/
def Keys (m : List (Chars × Chars)) : List Chars := m.map Prod.fst

/-- Go map assignment `m[k] = v` on the insertion-ordered model. -/
def assocSet : List (Chars × Chars) → Chars → Chars → List (Chars × Chars)
  | [], k, v => [(k, v)]
  | (k1, v1) :: rest, k, v =>
    if k1 = k then (k, v) :: rest else (k1, v1) :: assocSet rest k v

/-- The `nic-hdl` search of `prepareFR`: first entry (in `Keys` order)
whose recorded handle equals `val`; returns its role and the map with
that entry deleted. -/
def frCorrelate : List (Chars × Chars) → Chars → Option (Chars × List (Chars × Chars))
  | [], _ => none
  | (k, h) :: rest, val =>
    if h = val then some (k, rest)
    else
      match frCorrelate rest val with
      | some rm => some (rm.1, (k, h) :: rm.2)
      | none => none

/-- Key of a (trimmed) `prepareFR` line: `strings.TrimSpace(vs[0])`. -/
def frKeyC (v : Chars) : Chars := trimSpace ((splitChar (':') v).headD [])

/-- Second split segment of a (trimmed) `prepareFR` line: `vs[1]`,
`none` when the line has no colon (where Go would panic on access). -/
def frValC (v : Chars) : Option Chars := (splitChar (':') v).get? 1

/-- Loop state of `prepareFR`. -/
structure FRState where
  token : Chars
  newBlock : Bool
  hdls : List (Chars × Chars)
  result : Chars
deriving DecidableEq, Repr

/-- One iteration of the `prepareFR` loop.  The four guards returning
`none` are exactly the Go `vs[1]` reads that panic when the line has no
colon: the registrar rewrite at block start, the role-table recording,
the `dsl-id` check, and the `nic-hdl` comparison (the latter only
evaluated when the handle map is non-empty, since `vs[1]` sits inside
the loop over `Keys(hdls)`). -/
def stepFR (s : FRState) (v0 : Chars) : Option FRState :=
  let v := trimSpace v0
  if v = [] then some { s with newBlock := true }
  else
    let key := frKeyC v
    let isReg := s.newBlock = true ∧ key = str ("registrar")
    let isDsl := key = str ("dsl-id")
    let isHdl := key = str ("nic-hdl")
    if isReg ∧ frValC v = none then none
    else if (assocGet frRoleTokens key).isSome ∧ frValC v = none then none
    else if isDsl ∧ frValC v = none then none
    else if isHdl ∧ s.hdls ≠ [] ∧ frValC v = none then none
    else
      let w := trimSpace ((frValC v).getD [])
      let tok1 := if isReg then str ("registrar ") else s.token
      let v1 := if isReg then str ("name: ") ++ w else v
      let hdls1 :=
        match assocGet frRoleTokens key with
        | some role => assocSet s.hdls role w
        | none => s.hdls
      let v2 := if isDsl ∧ w ≠ [] then v1 ++ '\n' :: str ("DNSSEC: signed") else v1
      match (if isHdl then frCorrelate hdls1 w else none) with
      | some rm =>
        some ⟨rm.1 ++ [' '], false, rm.2, s.result ++ '\n' :: ((rm.1 ++ [' ']) ++ v2)⟩
      | none => some ⟨tok1, false, hdls1, s.result ++ '\n' :: (tok1 ++ v2)⟩

/-- Loop of `prepareFR` over the lines. -/
def frLoop : List Chars → FRState → Option Chars
  | [], s => some s.result
  | v :: rest, s =>
    match stepFR s v with
    | none => none
    | some s2 => frLoop rest s2

/-- Go `prepareFR`. -/
def prepareFR (text : Chars) : Option Chars :=
  frLoop (splitChar ('\n') text) ⟨[], false, [], []⟩

/-! Transformer for `.ru` / `.su` (`prepareRU`). -/

/-- Substitution table of `prepareRU`. -/
def ruTokens : List (Chars × Chars) :=
  [(str ("person"), str ("Registrant Name")),
   (str ("e-mail"), str ("Registrant Email")),
   (str ("org"), str ("Registrant Organization"))]

/-- Loop body of `prepareRU`: colon-free lines are dropped; a matched
key is rewritten as `Sprintf("%s: %s", vv, vs[1])` (note that `vs[1]`
keeps the blank that followed the original colon); each kept line is
emitted followed by a newline. -/
def ruLoop : List Chars → Chars → Chars
  | [], result => result
  | v0 :: rest, result =>
    let v := trimSpace v0
    if v = [] then ruLoop rest result
    else if ¬ v.contains (':') then ruLoop rest result
    else
      let vs := splitChar (':') v
      let v2 :=
        match assocGet ruTokens (trimSpace (vs.headD [])) with
        | some vv => vv ++ ':' :: ' ' :: ((vs.get? 1).getD [])
        | none => v
      ruLoop rest (result ++ v2 ++ ['\n'])

/-- Go `prepareRU`. -/
def prepareRU (text : Chars) : Chars := ruLoop (splitChar ('\n') text) []

/-! Transformer for `.jp` (`prepareJP`). -/

/-- Per-line effect of `dotJPReplacer.ReplaceAllString(text, "\n$1: $2")`
with the pattern `\n\[(.+?)\][\ ]*(.+?)?`: a line (after a newline)
starting with `[` becomes `name: rest`, where the lazy `(.+?)` makes
`name` the shortest non-empty prefix followed by a `]` — one mandatory
character (which may itself be `]`, e.g. `[]a]b` rewrites to `]a: b`)
and then everything up to the next `]` — and `rest` is the text after
that `]` with its leading spaces removed (the lazy optional `(.+?)?`
captures one character and the untouched remainder of the line follows
the replacement, so the two concatenate back to `rest`).  With no `]`
after the first character the pattern cannot match and the line is kept
as is. -/
def jpLineRw (line : Chars) : Chars :=
  match line with
  | '[' :: c :: r2 =>
    let nameTail := r2.takeWhile (fun x => ¬ x = (']'))
    if nameTail.length = r2.length then line
    else (c :: nameTail) ++ ':' :: ' ' ::
      ((r2.drop (nameTail.length + 1)).dropWhile (fun x => x = ' '))
  | _ => line

/-- Go `dotJPReplacer.ReplaceAllString(text, "\n$1: $2")`: the pattern
requires a literal `\n`, so the first line is untouched and every later
line is rewritten independently. -/
def jpReplaceAll (text : Chars) : Chars :=
  match splitChar ('\n') text with
  | [] => text
  | first :: rest => joinNL (first :: rest.map jpLineRw)

/-- Loop body of `prepareJP`. -/
def jpLoop : List Chars → Chars → Chars → Chars → Chars
  | [], _, _, result => result
  | v0 :: rest, token0, pre0, result =>
    let v := trimSpace v0
    if v = [] then jpLoop rest token0 pre0 result
    else
      if v.contains (':') then
        let token := trimSpace ((splitChar (':') v).headD [])
        let pre := if token = str ("Contact Information") then str ("admin ") else pre0
        jpLoop rest token pre (result ++ '\n' :: (pre ++ v))
      else
        if token0 = str ("Postal Address") then jpLoop rest token0 pre0 (result ++ ',' :: ' ' :: v)
        else jpLoop rest token0 pre0 (result ++ '\n' :: (pre0 ++ v))

/-- Go `prepareJP`. -/
def prepareJP (text : Chars) : Chars :=
  jpLoop (splitChar ('\n') (jpReplaceAll text)) [] [] []

/-! Transformer for `.uk` (`prepareUK`). -/

/-- Loop body of `prepareUK`. -/
def ukLoop : List Chars → Chars → Chars
  | [], result => result
  | v0 :: rest, result =>
    let v := trimSpace v0
    if v = [] then ukLoop rest result
    else
      let v2 :=
        if v.contains (':') then
          let vs := splitN2 (':') v
          if trimSpace (vs.headD []) = str ("URL") then
            str ("Registrar URL: ") ++ ((vs.get? 1).getD [])
          else v
        else v
      ukLoop rest (result ++ '\n' :: v2)

/-- Go `prepareUK`. -/
def prepareUK (text : Chars) : Chars := ukLoop (splitChar ('\n') text) []

/-! Transformer for `.kr` (`prepareKR`). -/

/-- Substitution table of `prepareKR`. -/
def krTokens : List (Chars × Chars) :=
  [(str ("Administrative Contact(AC)"), str ("Administrative Contact Name")),
   (str ("AC E-Mail"), str ("Administrative Contact E-Mail")),
   (str ("AC Phone Number"), str ("Administrative Contact Phone Number"))]

/-- Go `strings.Index` followed by the slice `text[pos+len(pat):]`:
everything after the first occurrence of `pat`, or `none` when absent. -/
def afterSeq (pat : Chars) : Chars → Option Chars
  | [] => if pat = [] then some [] else none
  | c :: rest =>
    if startsWithL pat (c :: rest) = true then some ((c :: rest).drop pat.length)
    else afterSeq pat rest

/-- The apostrophe character skipped by `prepareKR`. -/
def apos : Char := Char.ofNat 39

/-- Loop body of `prepareKR`. -/
def krLoop : List Chars → Chars → Chars
  | [], result => result
  | v0 :: rest, result =>
    let v := trimSpace v0
    if v = [] then krLoop rest result
    else if v.head? = some apos ∨ v.head? = some ('-') then krLoop rest result
    else
      let v2 :=
        if v.contains (':') then
          let vs := splitN2 (':') v
          match assocGet krTokens (trimSpace (vs.headD [])) with
          | some vv => vv ++ ':' :: ' ' :: ((vs.get? 1).getD [])
          | none => v
        else v
      krLoop rest (result ++ '\n' :: v2)

/-- Go `prepareKR`. -/
def prepareKR (text : Chars) : Chars :=
  krLoop (splitChar ('\n') ((afterSeq (str ("# ENGLISH")) text).getD text)) []

/-! The dispatcher (`Prepare`). -/

/-- The `switch` of `Prepare`: the dialect transformer for a
(lower-cased) tld, identity (`some text`) for unsupported labels. -/
def dispatch (tld text : Chars) : Option Chars :=
  if tld = str ("edu") then prepareEDU text
  else if tld = str ("int") then some (prepareINT text)
  else if tld = str ("mo") then some (prepareMO text)
  else if tld = str ("hk") then some (prepareHK text)
  else if tld = str ("tw") then prepareTW text
  else if tld = str ("ch") then some (prepareCH text)
  else if tld = str ("it") then some (prepareIT text)
  else if tld = str ("fr") then prepareFR text
  else if tld = str ("re") then prepareFR text
  else if tld = str ("tf") then prepareFR text
  else if tld = str ("yt") then prepareFR text
  else if tld = str ("pm") then prepareFR text
  else if tld = str ("wf") then prepareFR text
  else if tld = str ("ru") then some (prepareRU text)
  else if tld = str ("su") then some (prepareRU text)
  else if tld = str ("jp") then some (prepareJP text)
  else if tld = str ("uk") then some (prepareUK text)
  else if tld = str ("kr") then some (prepareKR text)
  else some text

/-- Go `Prepare`: pre-pass, dialect detection, dispatch.  `none` models
a Go runtime panic inside the selected transformer. -/
def Prepare (text : Chars) : Option Chars :=
  let t := prePass text
  match detectTld t with
  | some tld => dispatch tld t
  | none => some t

/-- Every tld label handled by the `switch` of `Prepare`. -/
def supportedTlds : List Chars :=
  [str ("edu"), str ("int"), str ("mo"), str ("hk"), str ("tw"), str ("ch"),
   str ("it"), str ("fr"), str ("re"), str ("tf"), str ("yt"), str ("pm"),
   str ("wf"), str ("ru"), str ("su"), str ("jp"), str ("uk"), str ("kr")]

/-- The pre-passed text selects no dialect: either no domain-name line
is found at all, or the detected tld is not a supported label. -/
def unhandledDialect (t : Chars) : Bool :=
  match detectTld t with
  | none => true
  | some tld => ! supportedTlds.contains tld

/-!  Claim theorems. -/

/-- Claim C1 (status: code_bug).  The claim — taken from the spec's
"never an error signal" contract — says `Prepare` returns normally on
every input, in particular on FR-routed inputs holding a colon-free
line whose trimmed text is one of the special keys.  The code violates
it: `strings.Split(v, ":")` on a colon-free line yields a one-element
slice and `vs[1]` panics with index out of range.  This theorem
evaluates the model at four such inputs, one per special key
(role key `holder-c`, `registrar` at block start, `nic-hdl` with a
non-empty handle map, `dsl-id`): each run aborts (modelled `none`). -/
theorem c1_fr_colon_free_key_line_fails :
    Prepare (str ("domain: example.fr\nholder-c")) = none ∧
    Prepare (str ("domain: example.fr\n\nregistrar")) = none ∧
    Prepare (str ("domain: example.fr\nadmin-c: AB1\nnic-hdl")) = none ∧
    Prepare (str ("domain: example.fr\ndsl-id")) = none := by
  refine ⟨?_, ?_, ?_, ?_⟩ <;> rfl

/-- Claim C3 (status: code_bug).  The claim — the spec's invariant that
the field cursor never exceeds the schema length and that surplus lines
are dropped or folded — fails on the code: `tokens[token][index]` in
`prepareEDU` and `prepareTW` has no bound check, so a section with more
consumable lines than schema entries panics with index out of range.
Evaluated here: an EDU `Registrant:` block (schema length 4) with five
lines and a TW `Contact:` block (schema length 2) with three lines. -/
theorem c3_schema_overrun_fails :
    Prepare (str ("Domain: x.edu\nRegistrant:\na\nb\nc\nd\ne")) = none ∧
    Prepare (str ("Domain: x.tw\nContact:\na\nb\nc")) = none := by
  refine ⟨?_, ?_⟩ <;> rfl

/-- Claim C7 (status: confirmed).  On the spec's EDU example the output
consists exactly of an empty first segment (the leading newline) and
the two claimed lines `Registrant Organization: Example University`
and `Registrant Address: 123 Main St`. -/
theorem c7_edu_example_lines :
    (prepareEDU (str ("Registrant:\nExample University\n123 Main St\n"))).map
        (splitChar ('\n')) =
      some [[], str ("Registrant Organization: Example University"),
            str ("Registrant Address: 123 Main St")] := by
  rfl

/-- Claim C5, counterexample.  On the spec's CH example input the
output does not contain the claimed line
`Registrant organization: Acme AG`: the comma-join of the continuation
line leaves a leading empty segment in the compound value, so the
sub-fields are shifted by one. -/
theorem c5_ch_holder_counterexample :
    ¬ (str ("Registrant organization: Acme AG")) ∈
        splitChar ('\n') (prepareCH (str ("Holder\nAcme AG, Jane Doe, Main Street 1"))) := by
  decide

/-- Claim C5 as amended (status: corrected).  The CH transformer's
output on the example input is exactly the three lines
`Registrant organization:  ` (its value a lone blank: the artifact of
the `", "`-join of the continuation line), `Registrant name: Acme AG`,
and `Registrant street: Jane Doe, Main Street 1` — the sub-field values
are shifted by one and the last sub-field absorbs the surplus
comma-separated segments. -/
theorem c5_amended_ch_holder_lines :
    splitChar ('\n') (prepareCH (str ("Holder\nAcme AG, Jane Doe, Main Street 1"))) =
      [str ("Registrant organization:  "), str ("Registrant name: Acme AG"),
       str ("Registrant street: Jane Doe, Main Street 1")] := by
  rfl

/-- Claim C6, counterexample.  On the spec's RU example the output is
not the claimed string (the code emits two blanks after each rewritten
colon and a trailing newline). -/
theorem c6_ru_counterexample :
    prepareRU (str ("person: John Smith\ne-mail: j@example.com\n")) ≠
      str ("Registrant Name: John Smith\nRegistrant Email: j@example.com") := by
  decide

/-- Claim C6 as amended (status: corrected).  The RU transformer
rewrites the labels and keeps the lines in input order, but the value
keeps the blank that followed the original colon (giving two blanks
after the rewritten colon) and every kept line is followed by a
newline: the exact output is
`Registrant Name:  John Smith\nRegistrant Email:  j@example.com\n`. -/
theorem c6_amended_ru_exact_output :
    prepareRU (str ("person: John Smith\ne-mail: j@example.com\n")) =
      str ("Registrant Name:  John Smith\nRegistrant Email:  j@example.com\n") := by
  rfl

/-- A tld outside `supportedTlds` falls through every case of the
`switch` in `Prepare`, which then returns its input unchanged. -/
theorem dispatch_unsupported (tld text : Chars)
    (hc : supportedTlds.contains tld = false) : dispatch tld text = some text := by
  rw [dispatch]
  repeat rw [if_neg (fun he => absurd (he ▸ hc) (by decide))]

/-- Claim C2 (status: confirmed).  Whenever the detector finds no
domain-name line at all, or finds one whose tld is not a supported
dialect label, `Prepare` returns the input after only the universal
pre-pass (carriage returns stripped, each tab replaced by a space). -/
theorem c2_unsupported_tld_passthrough (text : Chars)
    (h : unhandledDialect (prePass text) = true) :
    Prepare text = some (prePass text) := by
  have hP : Prepare text =
      (match detectTld (prePass text) with
       | some tld => dispatch tld (prePass text)
       | none => some (prePass text)) := rfl
  rw [hP]
  unfold unhandledDialect at h
  split at h
  next heq => rw [heq]
  next tld heq =>
    rw [heq]
    exact dispatch_unsupported tld (prePass text) (by simpa using h)

/-- Witness for C2: a `.com` response with a tab and a CRLF; the
detected tld `com` is unsupported and the output is the pre-passed
input byte for byte. -/
theorem c2_unsupported_tld_passthrough_witness :
    Prepare (str ("Domain:\tsite.com\r\n")) = some (prePass (str ("Domain:\tsite.com\r\n"))) :=
  c2_unsupported_tld_passthrough (str ("Domain:\tsite.com\r\n")) (by decide)

/-- Claim C4, counterexample.  The input `example.ru\nperson: John\n`
contains a bare `<label>.<tld>` occurrence with the supported tld `ru`
and no literal `Domain` text, yet `Prepare` returns it unchanged
instead of selecting the RU transformer (whose output on this input
differs). -/
theorem c4_bare_domain_counterexample :
    Prepare (str ("example.ru\nperson: John\n")) =
        some (str ("example.ru\nperson: John\n")) ∧
      prepareRU (str ("example.ru\nperson: John\n")) ≠
        str ("example.ru\nperson: John\n") := by
  refine ⟨rfl, by decide⟩

/-- If a string holds no case-insensitive occurrence of `pat`, the
anchored case-insensitive match at its head fails. -/
theorem ciStarts_false_of_containsCI_false (p l : Chars)
    (h : containsCI p l = false) : ciStarts p l = false := by
  cases l with
  | nil =>
    cases p with
    | nil => simp [containsCI] at h
    | cons a q => simp [ciStarts]
  | cons c r =>
    unfold containsCI at h
    exact (Bool.or_eq_false_iff.mp h).1

/-- Substring-freeness is inherited by the tail. -/
theorem containsCI_tail (p : Chars) (c : Char) (r : Chars)
    (h : containsCI p (c :: r) = false) : containsCI p r = false := by
  unfold containsCI at h
  exact (Bool.or_eq_false_iff.mp h).2

/-- Without a case-insensitive occurrence of `domain`, the detector
regex cannot match at this position: its mandatory literal is missing
whether or not a leading `[` is consumed. -/
theorem matchDomainAt_eq_none (l : Chars)
    (h : containsCI (str ("domain")) l = false) : matchDomainAt l = none := by
  cases l with
  | nil => rfl
  | cons c r =>
    unfold matchDomainAt
    by_cases hc : (c :: r).head? = some ('[')
    · simp only [if_pos hc, List.tail_cons]
      rw [ciStarts_false_of_containsCI_false _ _ (containsCI_tail _ _ _ h)]
      rfl
    · simp only [if_neg hc]
      rw [ciStarts_false_of_containsCI_false _ _ h]
      rfl

/-- Without a case-insensitive occurrence of `domain`, the detector
finds no match anywhere. -/
theorem searchDomain_eq_none (l : Chars)
    (h : containsCI (str ("domain")) l = false) : searchDomain l = none := by
  induction l with
  | nil => rfl
  | cons c r ih =>
    unfold searchDomain
    rw [matchDomainAt_eq_none _ h]
    exact ih (containsCI_tail _ _ _ h)

/-- Claim C4 as amended (status: corrected).  The `Domain` part of the
detector pattern is not optional: the regex is
`(?i)\[?Domain(\s+name)?\]?\s*\:?\s*([a-z0-9\-]+)\.([a-z]{2,})`, whose
literal `Domain` must occur.  Hence any input with no case-insensitive
occurrence of `domain` — in particular one containing only a bare
`<label>.<tld>` with a supported tld — selects no transformer, and
`Prepare` returns the pre-passed input unchanged. -/
theorem c4_amended_literal_domain_required (text : Chars)
    (h : containsCI (str ("domain")) (prePass text) = false) :
    Prepare text = some (prePass text) := by
  have hd : detectTld (prePass text) = none := by
    unfold detectTld
    rw [searchDomain_eq_none _ h]
    rfl
  have hP : Prepare text =
      (match detectTld (prePass text) with
       | some tld => dispatch tld (prePass text)
       | none => some (prePass text)) := rfl
  rw [hP, hd]

/-- Witness for the amended C4: the counterexample input has no
`domain` occurrence and passes through `Prepare` unchanged. -/
theorem c4_amended_literal_domain_required_witness :
    Prepare (str ("example.ru\nperson: John\n")) =
      some (prePass (str ("example.ru\nperson: John\n"))) :=
  c4_amended_literal_domain_required (str ("example.ru\nperson: John\n")) (by decide)

/-- Claim C8 (status: confirmed).  In `prepareFR`: (1) a `nic-hdl` line
whose value correlates to the recorded `admin-c` entry (it is the first
entry, in `Keys` order, whose recorded handle equals the line's trimmed
value — the hypothesis `frCorrelate … = some (admin, hd2)`) sets the
pending label to `admin `, removes exactly that entry from the handle
map (so the handle correlates at most once), and emits the line with
the `admin ` label; (2) EVERY following non-blank line that is neither
a registrar-at-block-start event nor a successfully correlating
`nic-hdl` line (and does not hit a colon-free panic site) — this covers
plain lines with or without colon, role-key lines (`holder-c` etc.,
which record their handle), `dsl-id` lines (whose `DNSSEC: signed`
chunk is part of the same emission), and non-correlating `nic-hdl`
lines — is emitted prefixed with the current pending label, which is
left unchanged, so the label persists until the next correlation or
registrar event; (3) a blank line only sets the new-block flag and
keeps the label. -/
theorem c8_fr_admin_correlation :
    (∀ (s : FRState) (v w : Chars) (hd2 : List (Chars × Chars)),
       trimSpace v ≠ [] →
       frKeyC (trimSpace v) = str ("nic-hdl") →
       frValC (trimSpace v) = some w →
       frCorrelate s.hdls (trimSpace w) = some (str ("admin"), hd2) →
       stepFR s v = some ⟨str ("admin "), false, hd2,
         s.result ++ '\n' :: (str ("admin ") ++ trimSpace v)⟩) ∧
    (∀ (s : FRState) (v : Chars),
       trimSpace v ≠ [] →
       ¬ (s.newBlock = true ∧ frKeyC (trimSpace v) = str ("registrar")) →
       (((assocGet frRoleTokens (frKeyC (trimSpace v))).isSome = true ∨
           frKeyC (trimSpace v) = str ("dsl-id") ∨
           (frKeyC (trimSpace v) = str ("nic-hdl") ∧ s.hdls ≠ [])) →
         frValC (trimSpace v) ≠ none) →
       (frKeyC (trimSpace v) = str ("nic-hdl") →
         frCorrelate s.hdls (trimSpace ((frValC (trimSpace v)).getD [])) = none) →
       stepFR s v = some ⟨s.token, false,
         (match assocGet frRoleTokens (frKeyC (trimSpace v)) with
          | some role => assocSet s.hdls role (trimSpace ((frValC (trimSpace v)).getD []))
          | none => s.hdls),
         s.result ++ '\n' :: (s.token ++
           (if frKeyC (trimSpace v) = str ("dsl-id") ∧
               trimSpace ((frValC (trimSpace v)).getD []) ≠ []
            then trimSpace v ++ '\n' :: str ("DNSSEC: signed")
            else trimSpace v))⟩) ∧
    (∀ (s : FRState) (v : Chars),
       trimSpace v = [] →
       stepFR s v = some ⟨s.token, true, s.hdls, s.result⟩) := by
  refine ⟨?_, ?_, ?_⟩
  · intro s v w hd2 hne hkey hval hcorr
    simp only [stepFR, hkey, hval, if_neg hne, Option.getD_some,
      show assocGet frRoleTokens (str ("nic-hdl")) = none from rfl,
      show (str ("nic-hdl") = str ("registrar")) = False from eq_false (by decide),
      show (str ("nic-hdl") = str ("dsl-id")) = False from eq_false (by decide),
      show (str ("nic-hdl") = str ("nic-hdl")) = True from eq_true rfl,
      Option.some_ne_none, Option.isSome_none, and_false, false_and, and_true,
      true_and, if_false, if_true, ite_false, ite_true, hcorr,
      show str ("admin") ++ [' '] = str ("admin ") from rfl]
  · intro s v hne hreg hval hnocorr
    simp only [stepFR]
    rw [if_neg hne]
    rw [if_neg (show ¬ ((s.newBlock = true ∧ frKeyC (trimSpace v) = str ("registrar")) ∧
        frValC (trimSpace v) = none) from fun h => hreg h.1)]
    rw [if_neg (show ¬ ((assocGet frRoleTokens (frKeyC (trimSpace v))).isSome = true ∧
        frValC (trimSpace v) = none) from fun h => hval (Or.inl h.1) h.2)]
    rw [if_neg (show ¬ (frKeyC (trimSpace v) = str ("dsl-id") ∧
        frValC (trimSpace v) = none) from fun h => hval (Or.inr (Or.inl h.1)) h.2)]
    rw [if_neg (show ¬ (frKeyC (trimSpace v) = str ("nic-hdl") ∧ s.hdls ≠ [] ∧
        frValC (trimSpace v) = none) from fun h => hval (Or.inr (Or.inr ⟨h.1, h.2.1⟩)) h.2.2)]
    rw [if_neg hreg, if_neg hreg]
    split
    · next rm heq =>
      by_cases hk : frKeyC (trimSpace v) = str ("nic-hdl")
      · rw [if_pos hk, hk] at heq
        rw [show assocGet frRoleTokens (str ("nic-hdl")) = none from rfl] at heq
        rw [hnocorr hk] at heq
        cases heq
      · rw [if_neg hk] at heq
        cases heq
    · rfl
  · intro s v hbl
    simp only [stepFR, if_pos hbl]

/-- Witness for C8: the `nic-hdl: AB1` line correlating to a recorded
`admin-c` handle `AB1`; then, under the resulting `admin ` label, a
role-key line, a `dsl-id` line, a non-correlating `nic-hdl` line and a
colon-free plain line — each emitted with the `admin ` prefix and the
label unchanged; finally a blank line, which keeps the label. -/
theorem c8_fr_admin_correlation_witness :
    stepFR ⟨[], false, [(str ("admin"), str ("AB1"))], str ("\nx")⟩ (str ("nic-hdl: AB1")) =
        some ⟨str ("admin "), false, [], str ("\nx\nadmin nic-hdl: AB1")⟩ ∧
      stepFR ⟨str ("admin "), false, [], []⟩ (str ("tech-c: TD1")) =
        some ⟨str ("admin "), false, [(str ("tech"), str ("TD1"))],
          str ("\nadmin tech-c: TD1")⟩ ∧
      stepFR ⟨str ("admin "), false, [], []⟩ (str ("dsl-id: 123")) =
        some ⟨str ("admin "), false, [], str ("\nadmin dsl-id: 123\nDNSSEC: signed")⟩ ∧
      stepFR ⟨str ("admin "), false, [(str ("tech"), str ("TD1"))], []⟩ (str ("nic-hdl: ZZ")) =
        some ⟨str ("admin "), false, [(str ("tech"), str ("TD1"))],
          str ("\nadmin nic-hdl: ZZ")⟩ ∧
      stepFR ⟨str ("admin "), false, [], []⟩ (str ("hello")) =
        some ⟨str ("admin "), false, [], str ("\nadmin hello")⟩ ∧
      stepFR ⟨str ("admin "), false, [], []⟩ (str ("   ")) =
        some ⟨str ("admin "), true, [], []⟩ :=
  ⟨c8_fr_admin_correlation.1 _ _ _ [] (by decide) rfl rfl rfl,
   c8_fr_admin_correlation.2.1 _ _ (by decide) (by decide) (by decide) (by decide),
   c8_fr_admin_correlation.2.1 _ _ (by decide) (by decide) (by decide) (by decide),
   c8_fr_admin_correlation.2.1 _ _ (by decide) (by decide) (by decide) (by decide),
   c8_fr_admin_correlation.2.1 _ _ (by decide) (by decide) (by decide) (by decide),
   c8_fr_admin_correlation.2.2 _ _ rfl⟩

/-- Claim C9 (status: confirmed, spec-modelled).  `Prepare` is a pure
function of its input: equal inputs give equal outputs.  The Go helper
`Keys` (the enumeration order of the handle map) is not under src and
is modelled from the spec as a deterministic insertion-order
enumeration, per the spec's pure-function contract; under that model
the role chosen when one `nic-hdl` value matches two recorded handles
is likewise determined (see the witness). -/
theorem c9_prepare_deterministic (s t : Chars) (h : s = t) : Prepare s = Prepare t :=
  congrArg Prepare h

/-- Witness for C9, at an FR input in which the `nic-hdl` value `H1`
equals the recorded handles of both `holder-c` and `admin-c`: the run
is reproducible and resolves, in `Keys` order, to the `holder` role. -/
theorem c9_prepare_deterministic_witness :
    Prepare (str ("domain: x.fr\nholder-c: H1\nadmin-c: H1\nnic-hdl: H1")) =
        Prepare (str ("domain: x.fr\nholder-c: H1\nadmin-c: H1\nnic-hdl: H1")) ∧
      Prepare (str ("domain: x.fr\nholder-c: H1\nadmin-c: H1\nnic-hdl: H1")) =
        some (str ("\ndomain: x.fr\nholder-c: H1\nadmin-c: H1\nholder nic-hdl: H1")) :=
  ⟨c9_prepare_deterministic _ _ rfl, rfl⟩

/-! Infrastructure for claim C10: shape of the accumulated result. -/

/-- The accumulated result is empty or begins with a newline. -/
def nlHead (r : Chars) : Prop := r = [] ∨ r.head? = some ('\n')

/-- Emitting `"\n" + line` preserves the shape. -/
theorem nlHead_emit (r x : Chars) (h : nlHead r) : nlHead (r ++ '\n' :: x) := by
  cases r with
  | nil => exact Or.inr rfl
  | cons c t =>
    rcases h with h | h
    · exact absurd h (by simp)
    · exact Or.inr (by simpa using h)

/-- Appending anything to a non-empty result keeps its first character
(the continuation joins `", " + v` of the loops). -/
theorem nlHead_keep (r x : Chars) (hr : r ≠ []) (h : nlHead r) : nlHead (r ++ x) := by
  cases r with
  | nil => exact absurd rfl hr
  | cons c t =>
    rcases h with h | h
    · exact absurd h (by simp)
    · exact Or.inr (by simpa using h)

/-- The head of a list survives appending on the right. -/
theorem head_append_of_some (l t : Chars) (c : Char) (h : l.head? = some c) :
    (l ++ t).head? = some c := by
  cases l with
  | nil => cases h
  | cons a q => simpa using h

/-- Invariant of the `prepareEDU` loop: every emission prepends `"\n"`. -/
theorem eduLoop_nlHead (lines : List Chars) :
    ∀ (token : Chars) (index : Nat) (result r : Chars),
      eduLoop lines token index result = some r → nlHead result → nlHead r := by
  induction lines with
  | nil =>
    intro token index result r h hres
    simp only [eduLoop, Option.some.injEq] at h
    exact h ▸ hres
  | cons v0 rest ih =>
    intro token index result r h hres
    simp only [eduLoop] at h
    repeat' split at h
    all_goals first
      | exact Option.noConfusion h
      | exact absurd rfl (by assumption)
      | exact ih _ _ _ _ h hres
      | exact ih _ _ _ _ h (nlHead_emit _ _ hres)

/-- Invariant of the `prepareINT` loop. -/
theorem intLoop_nlHead (lines : List Chars) :
    ∀ (token result : Chars), nlHead result → nlHead (intLoop lines token result) := by
  induction lines with
  | nil => intro token result h; simpa only [intLoop] using h
  | cons v0 rest ih =>
    intro token result h
    simp only [intLoop]
    repeat' split
    all_goals first
      | exact ih _ _ h
      | exact ih _ _ (nlHead_emit _ _ h)

/-- Invariant of the `prepareMO` loop. -/
theorem moLoop_nlHead (lines : List Chars) :
    ∀ (token result : Chars), nlHead result → nlHead (moLoop lines token result) := by
  induction lines with
  | nil => intro token result h; simpa only [moLoop] using h
  | cons v0 rest ih =>
    intro token result h
    simp only [moLoop]
    repeat' split
    all_goals first
      | exact ih _ _ h
      | exact ih _ _ (nlHead_emit _ _ h)

/-- Invariant of the `prepareTW` loop (the name/email case emits two
`"\n"`-led lines at once). -/
theorem twLoop_nlHead (lines : List Chars) :
    ∀ (token : Chars) (idx : Nat) (result r : Chars),
      twLoop lines token idx result = some r → nlHead result → nlHead r := by
  induction lines with
  | nil =>
    intro token idx result r h hres
    simp only [twLoop, Option.some.injEq] at h
    exact h ▸ hres
  | cons v0 rest ih =>
    intro token idx result r h hres
    simp only [twLoop] at h
    repeat' split at h
    all_goals first
      | exact Option.noConfusion h
      | exact absurd rfl (by assumption)
      | exact ih _ _ _ _ h hres
      | exact ih _ _ _ _ h (nlHead_emit _ _ hres)
      | exact ih _ _ _ _ h (nlHead_keep _ _ (by simp) (nlHead_emit _ _ hres))

/-- One `prepareFR` step emits at most one `"\n"`-led chunk. -/
theorem stepFR_nlHead (s s2 : FRState) (v : Chars)
    (h : stepFR s v = some s2) (hres : nlHead s.result) : nlHead s2.result := by
  simp only [stepFR] at h
  repeat' split at h
  all_goals first
    | exact Option.noConfusion h
    | (rw [Option.some.injEq] at h; subst h; exact hres)
    | (rw [Option.some.injEq] at h; subst h; exact nlHead_emit _ _ hres)

/-- Invariant of the `prepareFR` loop. -/
theorem frLoop_nlHead (lines : List Chars) :
    ∀ (s : FRState) (r : Chars),
      frLoop lines s = some r → nlHead s.result → nlHead r := by
  induction lines with
  | nil =>
    intro s r h hres
    simp only [frLoop, Option.some.injEq] at h
    exact h ▸ hres
  | cons v rest ih =>
    intro s r h hres
    simp only [frLoop] at h
    split at h
    · exact Option.noConfusion h
    · next s2 heq => exact ih _ _ h (stepFR_nlHead _ _ _ heq hres)

/-- Invariant of the `prepareIT` loop; the comma-join only fires under
an active sub-token, which guarantees a previous emission. -/
theorem itLoop_shape (lines : List Chars) :
    ∀ (top sub result : Chars), nlHead result → (sub ≠ [] → result ≠ []) →
      nlHead (itLoop lines top sub result) := by
  induction lines with
  | nil => intro top sub result h _; simpa only [itLoop] using h
  | cons v0 rest ih =>
    intro top sub result h hsub
    simp only [itLoop]
    repeat' split
    all_goals first
      | exact ih _ _ _ h hsub
      | exact ih _ _ _ h (fun hc => absurd rfl hc)
      | exact ih _ _ _ (nlHead_emit _ _ h) (fun _ => by simp)
      | exact ih _ _ _ (nlHead_keep _ _ (hsub (by assumption)) h) (fun _ => by simp)

/-- Invariant of the `prepareJP` loop; the postal-address comma-join
only fires under an active token, which guarantees a previous
emission. -/
theorem jpLoop_shape (lines : List Chars) :
    ∀ (token pre result : Chars), nlHead result → (token ≠ [] → result ≠ []) →
      nlHead (jpLoop lines token pre result) := by
  induction lines with
  | nil => intro token pre result h _; simpa only [jpLoop] using h
  | cons v0 rest ih =>
    intro token pre result h htok
    simp only [jpLoop]
    repeat' split
    all_goals first
      | exact ih _ _ _ h htok
      | exact ih _ _ _ (nlHead_emit _ _ h) (fun _ => by simp)
      | exact ih _ _ _
          (nlHead_keep _ _
            (htok (fun he => by
              rw [(by assumption : token = str ("Postal Address"))] at he
              exact absurd he (by decide))) h)
          (fun _ => by simp)

/-- Invariant of the `prepareUK` loop. -/
theorem ukLoop_nlHead (lines : List Chars) :
    ∀ (result : Chars), nlHead result → nlHead (ukLoop lines result) := by
  induction lines with
  | nil => intro result h; simpa only [ukLoop] using h
  | cons v0 rest ih =>
    intro result h
    simp only [ukLoop]
    repeat' split
    all_goals first
      | exact ih _ h
      | exact ih _ (nlHead_emit _ _ h)

/-- Invariant of the `prepareKR` loop. -/
theorem krLoop_nlHead (lines : List Chars) :
    ∀ (result : Chars), nlHead result → nlHead (krLoop lines result) := by
  induction lines with
  | nil => intro result h; simpa only [krLoop] using h
  | cons v0 rest ih =>
    intro result h
    simp only [krLoop]
    repeat' split
    all_goals first
      | exact ih _ h
      | exact ih _ (nlHead_emit _ _ h)

/-- The head of a trimmed line is never a whitespace character. -/
theorem head_of_dropWhile_goIsSpace (l : Chars) :
    ∀ c, ((l.dropWhile goIsSpace).head? = some c) → goIsSpace c = false := by
  induction l with
  | nil => intro c hc; cases hc
  | cons a t ih =>
    intro c hc
    rw [List.dropWhile_cons] at hc
    split at hc
    · exact ih c hc
    · next hpa =>
      rw [List.head?_cons, Option.some.injEq] at hc
      subst hc
      simpa using hpa

/-- The first character of a non-empty `trimSpace` output is not
whitespace (right trimming only shortens from the rear). -/
theorem trimSpace_head (x : Chars) (c : Char)
    (hc : (trimSpace x).head? = some c) : goIsSpace c = false := by
  have hpre : ((x.dropWhile goIsSpace).reverse.dropWhile goIsSpace).reverse <+:
      x.dropWhile goIsSpace := by
    have h1 := List.dropWhile_suffix (l := (x.dropWhile goIsSpace).reverse) goIsSpace
    simpa using List.reverse_prefix.mpr h1
  obtain ⟨t, ht⟩ := hpre
  apply head_of_dropWhile_goIsSpace x c
  rw [← ht]
  unfold trimSpace at hc
  exact head_append_of_some _ _ _ hc

/-- Shape of the `prepareRU` accumulator: empty, or it starts with a
non-whitespace character and ends with a newline. -/
def ruShape (r : Chars) : Prop :=
  r = [] ∨ ((∃ c t, r = c :: t ∧ goIsSpace c = false) ∧ ∃ u, r = u ++ ['\n'])

/-- Appending `v + "\n"` with `v` led by a non-space character
preserves the `prepareRU` shape. -/
theorem ruShape_append (r v : Chars) (c0 : Char) (t0 : Chars)
    (hv : v = c0 :: t0) (hc0 : goIsSpace c0 = false) (h : ruShape r) :
    ruShape (r ++ v ++ ['\n']) := by
  rcases h with h | ⟨⟨c, t, hr, hc⟩, ⟨u, hu⟩⟩
  · subst h; subst hv
    exact Or.inr ⟨⟨c0, t0 ++ ['\n'], by simp, hc0⟩, ⟨c0 :: t0, by simp⟩⟩
  · subst hr
    exact Or.inr ⟨⟨c, t ++ v ++ ['\n'], by simp, hc⟩, ⟨(c :: t) ++ v, rfl⟩⟩

/-- Every value of the `prepareRU` substitution table starts with `R`. -/
theorem ruTokens_head (k vv : Chars) (h : assocGet ruTokens k = some vv) :
    vv.head? = some ('R') := by
  unfold assocGet at h
  rcases hf : List.find? (fun e => decide (e.1 = k)) ruTokens with _ | e
  · rw [hf] at h; cases h
  · rw [hf] at h
    rw [show Option.map Prod.snd (some e) = some (e.snd) from rfl] at h
    rw [Option.some.injEq] at h
    subst h
    have hmem := List.mem_of_find?_eq_some hf
    have he : e = (str ("person"), str ("Registrant Name")) ∨
        e = (str ("e-mail"), str ("Registrant Email")) ∨
        e = (str ("org"), str ("Registrant Organization")) := by
      simpa [ruTokens] using hmem
    rcases he with hm | hm | hm
    all_goals (subst hm; rfl)

/-- Invariant of the `prepareRU` loop: each kept line is appended as
`v + "\n"` with `v` led by a non-space character. -/
theorem ruLoop_shape (lines : List Chars) :
    ∀ (result : Chars), ruShape result → ruShape (ruLoop lines result) := by
  induction lines with
  | nil => intro result h; simpa only [ruLoop] using h
  | cons v0 rest ih =>
    intro result h
    simp only [ruLoop]
    split
    · exact ih _ h
    · split
      · exact ih _ h
      · next hne _ =>
        split
        · next vv heq =>
          have hvv : vv.head? = some ('R') := ruTokens_head _ _ heq
          cases vv with
          | nil => cases hvv
          | cons a q =>
            have ha : a = 'R' := by simpa using hvv
            subst ha
            exact ih _ (ruShape_append result ('R' :: (q ++ ':' :: ' ' ::
              (((splitChar (':') (trimSpace v0)).get? 1).getD []))) 'R' _ rfl (by decide) h)
        · cases hv : trimSpace v0 with
          | nil => exact absurd hv hne
          | cons c0 t0 =>
            exact ih _ (ruShape_append result (c0 :: t0) c0 t0 rfl
              (trimSpace_head v0 c0 (by rw [hv]; rfl)) h)

/-- A result of the newline-led shape that is non-empty starts with a
newline. -/
theorem nlHead_resolve (r : Chars) (h : nlHead r) (hne : r ≠ []) :
    r.head? = some ('\n') := by
  rcases h with h | h
  · exact absurd h hne
  · exact h

/-- Claim C10, counterexample.  The HK transformer is a dialect
transformer other than RU and CH, yet on an input whose first content
line is a `Family name` field the emitted output is non-empty and
starts with a blank, not a newline (the in-place name append writes
`" " + value` before any `"\n"`-led emission). -/
theorem c10_hk_newline_counterexample :
    Prepare (str ("Family name: Doe\nDomain name: example.hk")) =
        some (str (" Doe\nDomain name: example.hk")) ∧
      ¬ (str (" Doe\nDomain name: example.hk")).head? = some ('\n') := by
  exact ⟨rfl, by decide⟩

/-- Claim C10 as amended (status: corrected).  For every input, the
transformers other than RU, CH and HK (namely EDU, INT, MO, TW, IT, FR,
JP, UK, KR) return, when they return at all, either an empty text or a
text beginning with a newline character (each emitted line is prepended
as `"\n" + line`); the RU transformer instead appends `"\n"` after each
kept line, so its non-empty output ends with a newline and does not
start with one.  (HK had to be dropped from the claim: its `Family
name` in-place append can start the output with a blank, see the
counterexample.) -/
theorem c10_amended_line_emission_shape :
    (∀ text r, prepareEDU text = some r → r ≠ [] → r.head? = some ('\n')) ∧
    (∀ text, prepareINT text ≠ [] → (prepareINT text).head? = some ('\n')) ∧
    (∀ text, prepareMO text ≠ [] → (prepareMO text).head? = some ('\n')) ∧
    (∀ text r, prepareTW text = some r → r ≠ [] → r.head? = some ('\n')) ∧
    (∀ text, prepareIT text ≠ [] → (prepareIT text).head? = some ('\n')) ∧
    (∀ text r, prepareFR text = some r → r ≠ [] → r.head? = some ('\n')) ∧
    (∀ text, prepareJP text ≠ [] → (prepareJP text).head? = some ('\n')) ∧
    (∀ text, prepareUK text ≠ [] → (prepareUK text).head? = some ('\n')) ∧
    (∀ text, prepareKR text ≠ [] → (prepareKR text).head? = some ('\n')) ∧
    (∀ text, prepareRU text ≠ [] →
      ¬ (prepareRU text).head? = some ('\n') ∧
        (prepareRU text).getLast? = some ('\n')) := by
  refine ⟨?_, ?_, ?_, ?_, ?_, ?_, ?_, ?_, ?_, ?_⟩
  · intro text r h hne
    exact nlHead_resolve r (eduLoop_nlHead _ _ _ _ _ h (Or.inl rfl)) hne
  · intro text hne
    exact nlHead_resolve _ (intLoop_nlHead _ _ _ (Or.inl rfl)) hne
  · intro text hne
    exact nlHead_resolve _ (moLoop_nlHead _ _ _ (Or.inl rfl)) hne
  · intro text r h hne
    exact nlHead_resolve r (twLoop_nlHead _ _ _ _ _ h (Or.inl rfl)) hne
  · intro text hne
    exact nlHead_resolve _ (itLoop_shape _ _ _ _ (Or.inl rfl) (fun hc => absurd rfl hc)) hne
  · intro text r h hne
    exact nlHead_resolve r (frLoop_nlHead _ _ _ h (Or.inl rfl)) hne
  · intro text hne
    exact nlHead_resolve _ (jpLoop_shape _ _ _ _ (Or.inl rfl) (fun hc => absurd rfl hc)) hne
  · intro text hne
    exact nlHead_resolve _ (ukLoop_nlHead _ _ (Or.inl rfl)) hne
  · intro text hne
    exact nlHead_resolve _ (krLoop_nlHead _ _ (Or.inl rfl)) hne
  · intro text hne
    rcases ruLoop_shape (splitChar ('\n') text) [] (Or.inl rfl) with h | ⟨⟨c, t, hr, hc⟩, ⟨u, hu⟩⟩
    · exact absurd h hne
    · constructor
      · intro he
        rw [show prepareRU text = ruLoop (splitChar ('\n') text) [] from rfl, hr] at he
        rw [List.head?_cons, Option.some.injEq] at he
        subst he
        exact absurd hc (by decide)
      · rw [show prepareRU text = ruLoop (splitChar ('\n') text) [] from rfl, hu]
        exact List.getLast?_concat _

/-- Witness for the amended C10: each clause instantiated at a small
concrete input with a non-empty output. -/
theorem c10_amended_line_emission_shape_witness :
    (str ("\nx")).head? = some ('\n') ∧
      (prepareINT (str ("x"))).head? = some ('\n') ∧
      (prepareMO (str ("x"))).head? = some ('\n') ∧
      (str ("\ny")).head? = some ('\n') ∧
      (prepareIT (str ("x"))).head? = some ('\n') ∧
      (str ("\nz")).head? = some ('\n') ∧
      (prepareJP (str ("x"))).head? = some ('\n') ∧
      (prepareUK (str ("x"))).head? = some ('\n') ∧
      (prepareKR (str ("x"))).head? = some ('\n') ∧
      (¬ (prepareRU (str ("a: b"))).head? = some ('\n') ∧
        (prepareRU (str ("a: b"))).getLast? = some ('\n')) :=
  ⟨c10_amended_line_emission_shape.1 (str ("x")) (str ("\nx")) rfl (by decide),
   c10_amended_line_emission_shape.2.1 (str ("x")) (by decide),
   c10_amended_line_emission_shape.2.2.1 (str ("x")) (by decide),
   c10_amended_line_emission_shape.2.2.2.1 (str ("y")) (str ("\ny")) rfl (by decide),
   c10_amended_line_emission_shape.2.2.2.2.1 (str ("x")) (by decide),
   c10_amended_line_emission_shape.2.2.2.2.2.1 (str ("z")) (str ("\nz")) rfl (by decide),
   c10_amended_line_emission_shape.2.2.2.2.2.2.1 (str ("x")) (by decide),
   c10_amended_line_emission_shape.2.2.2.2.2.2.2.1 (str ("x")) (by decide),
   c10_amended_line_emission_shape.2.2.2.2.2.2.2.2.1 (str ("x")) (by decide),
   c10_amended_line_emission_shape.2.2.2.2.2.2.2.2.2 (str ("a: b")) (by decide)⟩

end WhoisParser
